import Mathlib

/-!
Shallow embedding of `autopr/services/publish_service.py`: the
progressive-publication state machine (Report Accumulator, Fragment
Renderer, Body Composer, Remote Reconciler), together with theorems
checking the specification's claims about it.

Python strings are modelled as Lean `String`; the line-oriented
operations (`str.splitlines`, `"\n".join`) are given explicit
character-level definitions so that their behaviour on edge cases
(trailing newline, empty string) matches CPython exactly.
-/

/-! ## Python-style line splitting and joining (character level) -/

/-- Split a character list at newline characters; the result is always a
nonempty list of newline-free pieces (`"a\nb"` gives `["a", "b"]`,
keeping a final empty piece for a trailing newline). -/
def splitNl : List Char → List (List Char)
  | [] => [[]]
  | c :: cs =>
    if c = '\n' then [] :: splitNl cs
    else
      match splitNl cs with
      | [] => [[c]]
      | l :: ls => (c :: l) :: ls

/-- Python `str.splitlines` restricted to the `'\n'` separator (the only
one occurring in this program): a trailing newline does not produce a
final empty line, and the empty string yields no lines at all. -/
def pySplitlinesL (l : List Char) : List (List Char) :=
  if (splitNl l).getLast? = some [] then (splitNl l).dropLast else splitNl l

/-- Join pieces with a newline separator (Python `"\n".join`). -/
def joinNl : List (List Char) → List Char
  | [] => []
  | [x] => x
  | x :: y :: ys => x ++ '\n' :: joinNl (y :: ys)

/-- Quote-prefix every line with `"> "` and rejoin: the comprehension
`'\n'.join([f"> {line}" for line in v.splitlines()])` in
`publish_call`. -/
def quoteLinesL (l : List Char) : List Char :=
  joinNl ((pySplitlinesL l).map (fun ln => '>' :: ' ' :: ln))

/-- String-level wrapper for `pySplitlinesL`. -/
def pySplitlines (s : String) : List String :=
  (pySplitlinesL s.data).map fun l => ⟨l⟩

/-- String-level wrapper for `quoteLinesL`. -/
def quoteText (s : String) : String := ⟨quoteLinesL s.data⟩

/-- ASCII approximation of Python `str.title` (applied to section keys):
a letter following a non-letter is uppercased, a letter following a
letter is lowercased. -/
def pyTitleL : List Char → Bool → List Char
  | [], _ => []
  | c :: cs, prevAlpha =>
    (if prevAlpha then c.toLower else c.toUpper) :: pyTitleL cs c.isAlpha

/-- String-level wrapper for `pyTitleL`. -/
def pyTitle (s : String) : String := ⟨pyTitleL s.data false⟩

/-- Number of (possibly overlapping) start positions at which `pat`
occurs as a contiguous sub-list of `s`. -/
def countOccs (pat : List Char) : List Char → Nat
  | [] => if pat = [] then 1 else 0
  | c :: cs => (if pat <+: c :: cs then 1 else 0) + countOccs pat cs

/-! ## Data model

The record types below come from `autopr.models`, which is referenced by
`publish_service.py` but whose source is not part of this repository;
they carry no behaviour of their own. -/

/-- Modelled from the spec: the issue reference (`Issue` in
`autopr.models.artifacts`, not among the sources); only its `number` and
`title` fields are used by the publish service. -/
structure Issue where
  number : Nat
  title : String
deriving DecidableEq

/-- Modelled from the spec: a CommitPlan is opaque beyond a
commit-message field (`CommitPlan` in `autopr.models.rail_objects`, not
among the sources). -/
structure CommitPlan where
  commit_message : String
deriving DecidableEq

/-- Modelled from the spec: the ReportDescription with title, body and
ordered commits (`PullRequestDescription` in
`autopr.models.rail_objects`, not among the sources). -/
structure PullRequestDescription where
  title : String
  body : String
  commits : List CommitPlan
deriving DecidableEq

/-! ## Remote reconciler (`GithubPublishService`)

The three HTTP operations are modelled by an environment that fixes the
outcome of the i-th GET / POST / PATCH request.  An outcome is either a
response (status code plus, for the find call, the decoded JSON list of
open pull requests) or `exn`: an exception raised by the HTTP library
itself (e.g. a connection failure), which the Python code does not
catch.  Every function threads a `RemoteState` recording the requests
made so far, and returns `Except Unit` results, `Except.error` marking a
Python exception propagating out of the function. -/

/-- The part of a pull-request JSON object the code reads
(`existing_pr["number"]`). -/
structure PRInfo where
  number : Nat
deriving DecidableEq

/-- Decoded response to the find (GET) request. -/
structure FindResp where
  status : Nat
  prs : List PRInfo
deriving DecidableEq

/-- Outcome of one HTTP request: a response, or an exception raised by
the transport. -/
inductive HttpOutcome (α : Type) where
  | resp : α → HttpOutcome α
  | exn : HttpOutcome α
deriving DecidableEq

/-- Environment fixing the outcome of each remote request, indexed by
how many requests of that kind were made before it. -/
structure RemoteEnv where
  findOutcome : Nat → HttpOutcome FindResp
  postOutcome : Nat → HttpOutcome Nat
  patchOutcome : Nat → HttpOutcome Nat

/-- Trace entry: one HTTP request issued by the reconciler. -/
inductive RemoteCall where
  | findCall : String → String → RemoteCall
  | createCall : String → String → String → String → RemoteCall
  | updateCall : Nat → String → String → RemoteCall
deriving DecidableEq

/-- Request counters and the trace of requests issued so far. -/
structure RemoteState where
  findIdx : Nat
  postIdx : Nat
  patchIdx : Nat
  calls : List RemoteCall
deriving DecidableEq

/-- The fresh remote state at the start of a publish attempt. -/
def initRemote : RemoteState := { findIdx := 0, postIdx := 0, patchIdx := 0, calls := [] }

/-- Constructor fields of `GithubPublishService` beyond the shared
accumulator state. -/
structure GithubConfig where
  token : String
  owner : String
  repo : String
  head_branch : String
  base_branch : String
deriving DecidableEq

/-- How `_find_existing_pr` decodes a find response: on a 200, the first
pull request of the returned array if any; on any other status it logs
and falls through to `None`.  (A returned pull-request object is a
nonempty JSON dict, hence truthy, so Python's `if prs:` test is the
`Option` test here.) -/
def decodeFind (r : FindResp) : Option PRInfo :=
  if r.status = 200 then r.prs.head? else none

/-- `GithubPublishService._find_existing_pr`. -/
def find_existing_pr (cfg : GithubConfig) (env : RemoteEnv) (st : RemoteState) :
    RemoteState × Except Unit (Option PRInfo) :=
  let st2 := { st with
    findIdx := st.findIdx + 1,
    calls := st.calls
      ++ [RemoteCall.findCall (cfg.owner ++ ":" ++ cfg.head_branch) cfg.base_branch] }
  match env.findOutcome st.findIdx with
  | HttpOutcome.exn => (st2, Except.error ())
  | HttpOutcome.resp r => (st2, Except.ok (decodeFind r))

/-- `GithubPublishService._create_pr`: issues the POST; a 201 logs
success, any other status logs failure; either way the function
returns normally. -/
def create_pr (cfg : GithubConfig) (env : RemoteEnv) (title body : String)
    (st : RemoteState) : RemoteState × Except Unit Unit :=
  let st2 := { st with
    postIdx := st.postIdx + 1,
    calls := st.calls
      ++ [RemoteCall.createCall cfg.head_branch cfg.base_branch title body] }
  match env.postOutcome st.postIdx with
  | HttpOutcome.exn => (st2, Except.error ())
  | HttpOutcome.resp _ => (st2, Except.ok ())

/-- `GithubPublishService._update`: re-runs the find; when it yields no
pull request the function logs and returns without issuing a PATCH;
otherwise it PATCHes the found pull request's number.  A 200 logs
success, any other status logs failure; either way it returns
normally. -/
def update_pr (cfg : GithubConfig) (env : RemoteEnv) (title body : String)
    (st : RemoteState) : RemoteState × Except Unit Unit :=
  match find_existing_pr cfg env st with
  | (st1, Except.error e) => (st1, Except.error e)
  | (st1, Except.ok none) => (st1, Except.ok ())
  | (st1, Except.ok (some pr0)) =>
    let st2 := { st1 with
      patchIdx := st1.patchIdx + 1,
      calls := st1.calls ++ [RemoteCall.updateCall pr0.number title body] }
    match env.patchOutcome st1.patchIdx with
    | HttpOutcome.exn => (st2, Except.error ())
    | HttpOutcome.resp _ => (st2, Except.ok ())

/-- `GithubPublishService._publish`: find, then update if a pull request
was found, else create. -/
def gh_publish (cfg : GithubConfig) (env : RemoteEnv) (title body : String)
    (st : RemoteState) : RemoteState × Except Unit Unit :=
  match find_existing_pr cfg env st with
  | (st1, Except.error e) => (st1, Except.error e)
  | (st1, Except.ok (some _)) => update_pr cfg env title body st1
  | (st1, Except.ok none) => create_pr cfg env title body st1

/-! ## Report accumulator and body composer (`PublishService`) -/

/-- In-memory state of a `PublishService` instance. -/
structure PublishServiceState where
  issue : Issue
  pr_desc : PullRequestDescription
  progress_updates : List String
deriving DecidableEq

/-- Side effects of constructing a `PublishService`: the commits
recorded through the commit service and the remote requests issued. -/
structure InitEffects where
  commits : List CommitPlan
  remoteCalls : List RemoteCall
deriving DecidableEq

/-- `PublishService._create_placeholder`: builds the placeholder
description; the returned list is the sequence of `CommitPlan`s passed
to `commit_service.commit` (exactly one). -/
def create_placeholder (issue : Issue) : PullRequestDescription × List CommitPlan :=
  let empty_commit : CommitPlan := { commit_message := "[empty] Running..." }
  ({ title := "Fix #" ++ Nat.repr issue.number ++ ": " ++ issue.title,
     body := "",
     commits := [empty_commit] }, [empty_commit])

/-- `PublishService.__init__` (also run by
`GithubPublishService.__init__` through `super().__init__`): stores the
issue, builds the placeholder description, starts with no progress
updates, and performs no remote interaction. -/
def initService (issue : Issue) : PublishServiceState × InitEffects :=
  let pc := create_placeholder issue
  ({ issue := issue, pr_desc := pc.1, progress_updates := [] },
   { commits := pc.2, remoteCalls := [] })

/-- `PublishService._build_progress_updates`. -/
def build_progress_updates (updates : List String) : String :=
  if updates = [] then ""
  else updates.foldl (fun b u => b ++ "\n" ++ u) "# Progress updates\n"

/-- `PublishService._build_body`. -/
def build_body (issue : Issue) (pr_desc : PullRequestDescription)
    (updates : List String) (finalize : Bool) : String :=
  let body := "Fixes #" ++ Nat.repr issue.number ++ "\n\n" ++ pr_desc.body
  let progress := build_progress_updates updates
  let progress := if finalize then
      "<details>\n  <summary>Click to see progress updates</summary>\n\n  "
        ++ progress ++ "\n</details>\n"
    else progress
  body ++ progress

/-- The disclosure label used by the finalize wrapper. -/
def clickPhrase : String := "Click to see progress updates"

/-- Python `str.replace` for a single-character pattern and replacement,
the only use in this program (`title.replace("_", " ")`). -/
def replaceChar (a b : Char) (s : String) : String :=
  ⟨s.data.map (fun c => if c = a then b else c)⟩

/-- One subsection built by the loop in `PublishService.publish_call`. -/
def render_subsection (default_open : List String) (kv : String × String) : String :=
  let title := replaceChar '_' ' ' (pyTitle kv.1)
  let content := quoteText kv.2
  "<details" ++ (if kv.1 ∈ default_open then " open" else "") ++ ">\n<summary>"
    ++ title ++ "</summary>\n\n" ++ content ++ "\n</details>"

/-- The progress string built by `PublishService.publish_call` from its
keyword sections (an ordered association list here). -/
def render_progress (summary : String) (sections : List (String × String))
    (default_open : List String) : String :=
  let subsections := sections.map (render_subsection default_open)
  let subsections_content := String.intercalate "\n\n" subsections
  let subsections_content := quoteText subsections_content
  "<details>\n<summary>" ++ summary ++ "</summary>\n\n"
    ++ subsections_content ++ "\n\n</details>\n"

/-- `PublishService.update` as run by the GitHub implementation:
rebuild the body (not finalized) and reconcile. -/
def svc_update (cfg : GithubConfig) (env : RemoteEnv) (s : PublishServiceState)
    (rst : RemoteState) : RemoteState × Except Unit Unit :=
  gh_publish cfg env s.pr_desc.title
    (build_body s.issue s.pr_desc s.progress_updates false) rst

/-- `PublishService.finalize`: rebuild the body with the history
collapsed and reconcile. -/
def svc_finalize (cfg : GithubConfig) (env : RemoteEnv) (s : PublishServiceState)
    (rst : RemoteState) : RemoteState × Except Unit Unit :=
  gh_publish cfg env s.pr_desc.title
    (build_body s.issue s.pr_desc s.progress_updates true) rst

/-- `PublishService.set_pr_description`: overwrite the description, then
re-publish.  The state mutation happens before the remote interaction,
so it persists even when the publish step raises. -/
def set_pr_description (cfg : GithubConfig) (env : RemoteEnv)
    (s : PublishServiceState) (rst : RemoteState) (pr : PullRequestDescription) :
    PublishServiceState × RemoteState × Except Unit Unit :=
  let s2 := { s with pr_desc := pr }
  let r := svc_update cfg env s2 rst
  (s2, r.1, r.2)

/-- `PublishService.publish_update`: append one fragment, then
re-publish.  The append happens before the remote interaction, so it
persists even when the publish step raises. -/
def publish_update (cfg : GithubConfig) (env : RemoteEnv)
    (s : PublishServiceState) (rst : RemoteState) (text : String) :
    PublishServiceState × RemoteState × Except Unit Unit :=
  let s2 := { s with progress_updates := s.progress_updates ++ [text] }
  let r := svc_update cfg env s2 rst
  (s2, r.1, r.2)

/-- `PublishService.publish_call`: render the sections and append the
result as one fragment. -/
def publish_call (cfg : GithubConfig) (env : RemoteEnv)
    (s : PublishServiceState) (rst : RemoteState) (summary : String)
    (sections : List (String × String)) (default_open : List String) :
    PublishServiceState × RemoteState × Except Unit Unit :=
  publish_update cfg env s rst (render_progress summary sections default_open)

/-- The operations a caller can invoke on the accumulator after
construction. -/
inductive SvcOp where
  | setDesc : PullRequestDescription → SvcOp
  | pubUpdate : String → SvcOp
  | pubCall : String → List (String × String) → List String → SvcOp
  | doFinalize : SvcOp
deriving DecidableEq

/-- Run one caller-facing operation, keeping the accumulator state and
the remote trace (the per-call `Except` result is reported to the
caller and not needed to continue). -/
def applyOp (cfg : GithubConfig) (env : RemoteEnv)
    (st : PublishServiceState × RemoteState) (op : SvcOp) :
    PublishServiceState × RemoteState :=
  match op with
  | SvcOp.setDesc pr =>
    let r := set_pr_description cfg env st.1 st.2 pr
    (r.1, r.2.1)
  | SvcOp.pubUpdate t =>
    let r := publish_update cfg env st.1 st.2 t
    (r.1, r.2.1)
  | SvcOp.pubCall su se dop =>
    let r := publish_call cfg env st.1 st.2 su se dop
    (r.1, r.2.1)
  | SvcOp.doFinalize =>
    let r := svc_finalize cfg env st.1 st.2
    (st.1, r.1)

/-- Run a sequence of caller-facing operations. -/
def runOps (cfg : GithubConfig) (env : RemoteEnv)
    (st : PublishServiceState × RemoteState) (ops : List SvcOp) :
    PublishServiceState × RemoteState :=
  ops.foldl (applyOp cfg env) st

/-! ## Lemmas about line splitting and joining -/

theorem splitNl_ne_nil (l : List Char) : splitNl l ≠ [] := by
  induction l with
  | nil => simp [splitNl]
  | cons c cs ih =>
    unfold splitNl
    by_cases h : c = '\n'
    · simp [h]
    · simp only [h, if_false]
      cases hs : splitNl cs <;> simp

theorem not_nl_of_mem_splitNl {l : List Char} :
    ∀ {p : List Char}, p ∈ splitNl l → '\n' ∉ p := by
  induction l with
  | nil =>
    intro p hp
    simp [splitNl] at hp
    simp [hp]
  | cons c cs ih =>
    intro p hp
    unfold splitNl at hp
    by_cases h : c = '\n'
    · rw [if_pos h] at hp
      rcases List.mem_cons.1 hp with rfl | hp
      · simp
      · exact ih hp
    · rw [if_neg h] at hp
      cases hs : splitNl cs with
      | nil => exact absurd hs (splitNl_ne_nil cs)
      | cons a as =>
        rw [hs] at hp
        rcases List.mem_cons.1 hp with rfl | hp
        · intro hmem
          rcases List.mem_cons.1 hmem with heq | hmem
          · exact h heq.symm
          · have ha : a ∈ splitNl cs := by
              rw [hs]; exact List.mem_cons_self a as
            exact ih ha hmem
        · exact ih (by rw [hs]; exact List.mem_cons_of_mem a hp)

theorem splitNl_of_not_nl {x : List Char} (hx : '\n' ∉ x) : splitNl x = [x] := by
  induction x with
  | nil => simp [splitNl]
  | cons c cs ih =>
    have hc : c ≠ '\n' := fun h => hx (h ▸ List.mem_cons_self c cs)
    have hcs : '\n' ∉ cs := fun h => hx (List.mem_cons_of_mem c h)
    unfold splitNl
    simp only [hc, if_false, ih hcs]

theorem splitNl_append_nl {x rest : List Char} (hx : '\n' ∉ x) :
    splitNl (x ++ '\n' :: rest) = x :: splitNl rest := by
  induction x with
  | nil => simp [splitNl]
  | cons c cs ih =>
    have hc : c ≠ '\n' := fun h => hx (h ▸ List.mem_cons_self c cs)
    have hcs : '\n' ∉ cs := fun h => hx (List.mem_cons_of_mem c h)
    simp only [List.cons_append]
    rw [splitNl]
    simp only [hc, if_false, ih hcs]

theorem splitNl_joinNl {ps : List (List Char)} (hne : ps ≠ [])
    (hnl : ∀ p ∈ ps, '\n' ∉ p) : splitNl (joinNl ps) = ps := by
  induction ps with
  | nil => exact absurd rfl hne
  | cons x xs ih =>
    cases xs with
    | nil =>
      simp only [joinNl]
      exact splitNl_of_not_nl (hnl x (List.mem_cons_self x []))
    | cons y ys =>
      have hx : '\n' ∉ x := hnl x (List.mem_cons_self x (y :: ys))
      have hxs : ∀ p ∈ y :: ys, '\n' ∉ p :=
        fun p hp => hnl p (List.mem_cons_of_mem x hp)
      simp only [joinNl]
      rw [splitNl_append_nl hx, ih (by simp) hxs]

theorem pySplitlinesL_joinNl {ps : List (List Char)}
    (h : ∀ p ∈ ps, '\n' ∉ p ∧ p ≠ []) : pySplitlinesL (joinNl ps) = ps := by
  cases ps with
  | nil => simp [joinNl, pySplitlinesL, splitNl]
  | cons x xs =>
    have hsplit : splitNl (joinNl (x :: xs)) = x :: xs :=
      splitNl_joinNl (by simp) (fun p hp => (h p hp).1)
    have hlast : (x :: xs).getLast? ≠ some ([] : List Char) := by
      intro hl
      exact (h _ (List.mem_of_getLast?_eq_some hl)).2 rfl
    unfold pySplitlinesL
    rw [hsplit, if_neg hlast]

theorem not_nl_of_mem_pySplitlinesL {l p : List Char}
    (hp : p ∈ pySplitlinesL l) : '\n' ∉ p := by
  unfold pySplitlinesL at hp
  split at hp
  · exact not_nl_of_mem_splitNl (List.mem_of_mem_dropLast hp)
  · exact not_nl_of_mem_splitNl hp

/-- Character-level core of the quote-prefix property: splitting the
quoted text recovers exactly the quoted lines of the original. -/
theorem pySplitlinesL_quoteLinesL (l : List Char) :
    pySplitlinesL (quoteLinesL l) = (pySplitlinesL l).map (fun ln => '>' :: ' ' :: ln) := by
  unfold quoteLinesL
  apply pySplitlinesL_joinNl
  intro p hp
  rcases List.mem_map.1 hp with ⟨ln, hln, rfl⟩
  constructor
  · intro hmem
    have hnl := not_nl_of_mem_pySplitlinesL hln
    rcases List.mem_cons.1 hmem with h | hmem
    · exact absurd h (by decide)
    · rcases List.mem_cons.1 hmem with h | hmem
      · exact absurd h (by decide)
      · exact hnl hmem
  · simp

/-! ## Lemmas about occurrence counting -/

theorem countOccs_nil {pat : List Char} (hp : pat ≠ []) : countOccs pat [] = 0 := by
  simp [countOccs, hp]

theorem countOccs_eq_zero_of_not_mem {pat s : List Char} {c : Char}
    (hc : c ∈ pat) (hn : c ∉ s) : countOccs pat s = 0 := by
  induction s with
  | nil =>
    have hp : pat ≠ [] := by rintro rfl; exact hn (absurd hc (by simp))
    exact countOccs_nil hp
  | cons d ds ih =>
    have hd : ¬ pat <+: d :: ds := fun h => hn (h.subset hc)
    have hds : c ∉ ds := fun h => hn (List.mem_cons_of_mem d h)
    simp [countOccs, hd, ih hds]

/-- Occurrence counting distributes over append when no occurrence can
straddle the boundary. -/
theorem countOccs_append (pat : List Char) (hp : pat ≠ []) :
    ∀ (x y : List Char),
      (∀ k, 0 < k → k < pat.length →
        ¬(pat.take k <:+ x ∧ pat.drop k <+: y)) →
      countOccs pat (x ++ y) = countOccs pat x + countOccs pat y := by
  intro x
  induction x with
  | nil =>
    intro y _
    simp [countOccs_nil hp]
  | cons c x2 ih =>
    intro y hns
    have hns2 : ∀ k, 0 < k → k < pat.length →
        ¬(pat.take k <:+ x2 ∧ pat.drop k <+: y) := by
      intro k h1 h2 hky
      exact hns k h1 h2 ⟨hky.1.trans (List.suffix_cons c x2), hky.2⟩
    have hAB : (pat <+: c :: (x2 ++ y)) ↔ pat <+: c :: x2 := by
      by_cases hlen : pat.length ≤ (c :: x2).length
      · constructor
        · intro h
          have h1 := List.prefix_iff_eq_take.1 h
          rw [← List.cons_append] at h1
          rw [List.take_append_of_le_length hlen] at h1
          exact List.prefix_iff_eq_take.2 h1
        · intro h
          refine h.trans ?_
          rw [← List.cons_append]
          exact List.prefix_append _ y
      · have hlt : (c :: x2).length < pat.length := by omega
        constructor
        · intro h
          exfalso
          apply hns (c :: x2).length (by simp) hlt
          have heq := List.prefix_iff_eq_take.1 h
          constructor
          · have e1 : pat.take (c :: x2).length
                = (List.take pat.length (c :: (x2 ++ y))).take (c :: x2).length := by
              conv_lhs => rw [heq]
            rw [List.take_take, Nat.min_eq_left (Nat.le_of_lt hlt)] at e1
            rw [show List.take (c :: x2).length (c :: (x2 ++ y)) = c :: x2 from by
              rw [← List.cons_append]; exact List.take_left _ _] at e1
            rw [e1]
          · have e1 : pat.drop (c :: x2).length
                = (List.take pat.length (c :: (x2 ++ y))).drop (c :: x2).length := by
              conv_lhs => rw [heq]
            rw [List.drop_take] at e1
            rw [show List.drop (c :: x2).length (c :: (x2 ++ y)) = y from by
              rw [← List.cons_append]; exact List.drop_left _ _] at e1
            rw [e1]
            exact List.take_prefix _ _
        · intro h
          exact absurd h.length_le (by omega)
    simp only [List.cons_append, countOccs, hAB, List.append_eq]
    rw [ih y hns2]
    omega

/-- No straddling across the boundary when the right side starts with a
character that does not occur in the pattern. -/
theorem countOccs_append_headR {pat x y : List Char} {c : Char}
    (hp : pat ≠ []) (hy : y.head? = some c) (hc : c ∉ pat) :
    countOccs pat (x ++ y) = countOccs pat x + countOccs pat y := by
  apply countOccs_append pat hp
  intro k hk0 hkl hky
  rcases hky.2 with ⟨t, ht⟩
  have hne : pat.drop k ≠ [] := by
    intro h
    have := congrArg List.length h
    simp only [List.length_drop, List.length_nil] at this
    omega
  rw [← ht, List.head?_append] at hy
  cases hd : (pat.drop k).head? with
  | none => exact hne (List.head?_eq_none_iff.1 hd)
  | some d =>
    rw [hd] at hy
    simp only [Option.or_some, Option.some.injEq] at hy
    subst hy
    rcases List.head?_eq_some_iff.1 hd with ⟨ys, hys⟩
    exact hc (List.drop_subset k pat (hys ▸ List.mem_cons_self d ys))

/-- No straddling across the boundary when the left side ends with a
character that does not occur in the pattern. -/
theorem countOccs_append_lastL {pat x y : List Char} {c : Char}
    (hp : pat ≠ []) (hx : x.getLast? = some c) (hc : c ∉ pat) :
    countOccs pat (x ++ y) = countOccs pat x + countOccs pat y := by
  apply countOccs_append pat hp
  intro k hk0 hkl hky
  rcases hky.1 with ⟨t, ht⟩
  have hne : pat.take k ≠ [] := by
    intro h
    have := congrArg List.length h
    simp only [List.length_take, List.length_nil] at this
    omega
  rw [← ht, List.getLast?_append] at hx
  cases hgl : (pat.take k).getLast? with
  | none => exact hne (List.getLast?_eq_none_iff.1 hgl)
  | some a =>
    rw [hgl] at hx
    simp only [Option.or_some, Option.some.injEq] at hx
    subst hx
    exact hc (List.take_subset k pat (List.mem_of_getLast?_eq_some hgl))

/-! ## The decimal rendering of a natural number consists of digits -/

theorem digitChar_isDigit : ∀ m, m < 10 → (Nat.digitChar m).isDigit = true := by
  decide

theorem toDigitsCore_digits :
    ∀ (fuel n : Nat) (acc : List Char), (∀ c ∈ acc, c.isDigit = true) →
      ∀ c ∈ Nat.toDigitsCore 10 fuel n acc, c.isDigit = true := by
  intro fuel
  induction fuel with
  | zero =>
    intro n acc hacc c hc
    exact hacc c hc
  | succ fuel ih =>
    intro n acc hacc c hc
    unfold Nat.toDigitsCore at hc
    have hdig : (Nat.digitChar (n % 10)).isDigit = true :=
      digitChar_isDigit _ (Nat.mod_lt _ (by omega))
    have hacc2 : ∀ c ∈ Nat.digitChar (n % 10) :: acc, c.isDigit = true := by
      intro d hd
      rcases List.mem_cons.1 hd with rfl | hd
      · exact hdig
      · exact hacc d hd
    by_cases h : n / 10 = 0
    · rw [if_pos h] at hc
      exact hacc2 c hc
    · rw [if_neg h] at hc
      exact ih _ _ hacc2 c hc

theorem repr_digits (n : Nat) : ∀ c ∈ (Nat.repr n).data, c.isDigit = true := by
  intro c hc
  have : (Nat.repr n).data = Nat.toDigitsCore 10 (n + 1) n [] := rfl
  rw [this] at hc
  exact toDigitsCore_digits (n + 1) n [] (by simp) c hc

theorem not_mem_repr_of_not_digit {n : Nat} {c : Char}
    (h : c.isDigit = false) : c ∉ (Nat.repr n).data := by
  intro hmem
  rw [repr_digits n c hmem] at h
  exact absurd h (by simp)

/-! ## Counting the finalize label in composed bodies -/

theorem clickPhrase_ne_nil : clickPhrase.data ≠ [] := by decide

theorem nl_not_mem_clickPhrase : '\n' ∉ clickPhrase.data := by decide

theorem hash_not_mem_clickPhrase : '#' ∉ clickPhrase.data := by decide

theorem lt_not_mem_clickPhrase : '<' ∉ clickPhrase.data := by decide

theorem upperC_mem_clickPhrase : 'C' ∈ clickPhrase.data := by decide

/-- The tail of the progress section: one `"\n" ++ update` block per
accumulated update. -/
def progTail : List String → String
  | [] => ""
  | u :: us => "\n" ++ u ++ progTail us

theorem foldl_prog (l : List String) :
    ∀ a : String, l.foldl (fun b u => b ++ "\n" ++ u) a = a ++ progTail l := by
  induction l with
  | nil =>
    intro a
    apply String.ext
    simp [progTail]
  | cons u us ih =>
    intro a
    simp only [List.foldl_cons, progTail]
    rw [ih (a ++ "\n" ++ u)]
    apply String.ext
    simp

theorem build_progress_updates_eq {updates : List String} (h : updates ≠ []) :
    build_progress_updates updates = "# Progress updates\n" ++ progTail updates := by
  unfold build_progress_updates
  rw [if_neg h, foldl_prog]

theorem countOccs_clickPhrase_progTail {l : List String}
    (h : ∀ u ∈ l, countOccs clickPhrase.data u.data = 0) :
    countOccs clickPhrase.data (progTail l).data = 0 := by
  induction l with
  | nil => exact countOccs_nil clickPhrase_ne_nil
  | cons u us ih =>
    have hdata : (progTail (u :: us)).data
        = ['\n'] ++ (u.data ++ (progTail us).data) := by
      simp [progTail]
    rw [hdata]
    rw [countOccs_append_lastL clickPhrase_ne_nil (c := '\n') (by decide) nl_not_mem_clickPhrase]
    have hu : countOccs clickPhrase.data u.data = 0 :=
      h u (List.mem_cons_self u us)
    have hus : ∀ v ∈ us, countOccs clickPhrase.data v.data = 0 :=
      fun v hv => h v (List.mem_cons_of_mem u hv)
    cases us with
    | nil =>
      rw [show (progTail []).data = [] from rfl, List.append_nil, hu,
        show countOccs clickPhrase.data ['\n'] = 0 from by decide]
    | cons v vs =>
      have htl : (progTail (v :: vs)).data.head? = some '\n' := by
        simp [progTail]
      rw [countOccs_append_headR clickPhrase_ne_nil htl nl_not_mem_clickPhrase]
      rw [hu, ih hus,
        show countOccs clickPhrase.data ['\n'] = 0 from by decide]

theorem countOccs_clickPhrase_progress {updates : List String}
    (h : ∀ u ∈ updates, countOccs clickPhrase.data u.data = 0) :
    countOccs clickPhrase.data (build_progress_updates updates).data = 0 := by
  cases hu : updates with
  | nil =>
    simp only [build_progress_updates, if_pos rfl]
    exact countOccs_nil clickPhrase_ne_nil
  | cons u us =>
    rw [build_progress_updates_eq (by simp)]
    rw [String.data_append]
    rw [countOccs_append_lastL clickPhrase_ne_nil
      (c := '\n') (by decide) nl_not_mem_clickPhrase]
    rw [countOccs_clickPhrase_progTail (hu ▸ h)]
    rw [countOccs_eq_zero_of_not_mem upperC_mem_clickPhrase (by decide)]

theorem getLast?_append_nlnl (x : List Char) :
    (x ++ ['\n', '\n']).getLast? = some '\n' := by
  rw [List.getLast?_append]
  simp

/-- The fixed body preamble `"Fixes #<n>\n\n" ++ description-body` holds no
occurrence of the finalize label as long as the description body holds
none: the label contains neither digits, `'#'` nor newlines, so it cannot
straddle these boundaries either. -/
theorem countOccs_clickPhrase_bodyPre (n : Nat) (d : String)
    (hdesc : countOccs clickPhrase.data d.data = 0) :
    countOccs clickPhrase.data ("Fixes #" ++ Nat.repr n ++ "\n\n" ++ d).data = 0 := by
  rw [String.data_append, String.data_append, String.data_append]
  rw [countOccs_append_lastL clickPhrase_ne_nil (c := '\n')
    (by exact getLast?_append_nlnl _) nl_not_mem_clickPhrase]
  rw [countOccs_append_headR clickPhrase_ne_nil (c := '\n')
    (by decide) nl_not_mem_clickPhrase]
  rw [countOccs_append_lastL clickPhrase_ne_nil (c := '#')
    (by decide) hash_not_mem_clickPhrase]
  rw [countOccs_eq_zero_of_not_mem upperC_mem_clickPhrase
    (not_mem_repr_of_not_digit (by decide))]
  rw [hdesc]
  rw [show countOccs clickPhrase.data ("Fixes #" : String).data = 0 from by decide]
  rw [show countOccs clickPhrase.data ("\n\n" : String).data = 0 from by decide]

/-- Counting the finalize label in a composed body: with fragments
present and no occurrence inside the description body or any fragment,
the finalized body holds exactly one occurrence (the wrapper's summary
line) and the non-finalized body holds none. -/
theorem countOccs_clickPhrase_build_body (issue : Issue)
    (desc : PullRequestDescription) (updates : List String) (hne : updates ≠ [])
    (hdesc : countOccs clickPhrase.data desc.body.data = 0)
    (hupd : ∀ u ∈ updates, countOccs clickPhrase.data u.data = 0) :
    countOccs clickPhrase.data (build_body issue desc updates true).data = 1 ∧
    countOccs clickPhrase.data (build_body issue desc updates false).data = 0 := by
  have hprog0 : countOccs clickPhrase.data (build_progress_updates updates).data = 0 :=
    countOccs_clickPhrase_progress hupd
  have hprogHead : (build_progress_updates updates).data.head? = some '#' := by
    rw [build_progress_updates_eq hne, String.data_append]
    rfl
  constructor
  · have e : build_body issue desc updates true
        = ("Fixes #" ++ Nat.repr issue.number ++ "\n\n" ++ desc.body) ++
          ("<details>\n  <summary>Click to see progress updates</summary>\n\n  "
            ++ build_progress_updates updates ++ "\n</details>\n") := rfl
    rw [e, String.data_append]
    have hwrapHead :
        ("<details>\n  <summary>Click to see progress updates</summary>\n\n  "
          ++ build_progress_updates updates ++ "\n</details>\n").data.head?
          = some '<' := by
      rw [String.data_append, String.data_append]
      rfl
    rw [countOccs_append_headR clickPhrase_ne_nil hwrapHead lt_not_mem_clickPhrase]
    rw [countOccs_clickPhrase_bodyPre issue.number desc.body hdesc]
    rw [String.data_append, String.data_append]
    rw [countOccs_append_headR clickPhrase_ne_nil
      (show ("\n</details>\n" : String).data.head? = some '\n' from by decide)
      nl_not_mem_clickPhrase]
    rw [countOccs_append_headR clickPhrase_ne_nil hprogHead hash_not_mem_clickPhrase]
    rw [hprog0]
    rw [show countOccs clickPhrase.data
      ("<details>\n  <summary>Click to see progress updates</summary>\n\n  "
        : String).data = 1 from by decide]
    rw [show countOccs clickPhrase.data ("\n</details>\n" : String).data = 0 from by decide]
  · have e : build_body issue desc updates false
        = ("Fixes #" ++ Nat.repr issue.number ++ "\n\n" ++ desc.body)
          ++ build_progress_updates updates := rfl
    rw [e, String.data_append]
    rw [countOccs_append_headR clickPhrase_ne_nil hprogHead hash_not_mem_clickPhrase]
    rw [countOccs_clickPhrase_bodyPre issue.number desc.body hdesc, hprog0]

/-! ## Helper computations for the operation layer -/

theorem applyOp_pubUpdate (cfg : GithubConfig) (env : RemoteEnv)
    (s : PublishServiceState) (rst : RemoteState) (t : String) :
    applyOp cfg env (s, rst) (SvcOp.pubUpdate t)
      = ({ s with progress_updates := s.progress_updates ++ [t] },
         (svc_update cfg env
           { s with progress_updates := s.progress_updates ++ [t] } rst).1) := rfl

theorem runOps_pubUpdate_progress (cfg : GithubConfig) (env : RemoteEnv) :
    ∀ (texts : List String) (s : PublishServiceState) (rst : RemoteState),
      (runOps cfg env (s, rst) (texts.map SvcOp.pubUpdate)).1.progress_updates
        = s.progress_updates ++ texts := by
  intro texts
  induction texts with
  | nil =>
    intro s rst
    simp [runOps]
  | cons t ts ih =>
    intro s rst
    simp only [List.map_cons, runOps, List.foldl_cons, applyOp_pubUpdate]
    rw [show (List.foldl (applyOp cfg env)
        ({ s with progress_updates := s.progress_updates ++ [t] },
          (svc_update cfg env
            { s with progress_updates := s.progress_updates ++ [t] } rst).1)
        (ts.map SvcOp.pubUpdate))
      = runOps cfg env
          ({ s with progress_updates := s.progress_updates ++ [t] },
            (svc_update cfg env
              { s with progress_updates := s.progress_updates ++ [t] } rst).1)
          (ts.map SvcOp.pubUpdate) from rfl]
    rw [ih]
    simp

/-! ## Claim theorems -/

/-- C6: for every sequence of `publish_update` (appendFragment) calls on
a freshly initialized accumulator, the fragment list afterwards is
exactly the appended texts in call order (hence of length equal to the
number of calls), and no caller-facing operation ever removes or changes
a previously appended fragment: every operation leaves the previous
fragment list as a prefix of the new one. -/
theorem append_only_fragments (cfg : GithubConfig) (env : RemoteEnv)
    (issue : Issue) (texts : List String) :
    ((runOps cfg env ((initService issue).1, initRemote)
        (texts.map SvcOp.pubUpdate)).1.progress_updates = texts
      ∧ (runOps cfg env ((initService issue).1, initRemote)
          (texts.map SvcOp.pubUpdate)).1.progress_updates.length = texts.length)
    ∧ ∀ (s : PublishServiceState) (rst : RemoteState) (op : SvcOp),
        s.progress_updates <+: (applyOp cfg env (s, rst) op).1.progress_updates := by
  have h := runOps_pubUpdate_progress cfg env texts (initService issue).1 initRemote
  have h0 : (initService issue).1.progress_updates = [] := rfl
  rw [h0, List.nil_append] at h
  refine ⟨⟨h, by rw [h]⟩, ?_⟩
  intro s rst op
  cases op with
  | setDesc pr => exact List.prefix_refl _
  | pubUpdate t => exact List.prefix_append _ _
  | pubCall su se dop => exact List.prefix_append _ _
  | doFinalize => exact List.prefix_refl _

/-- C10: `publish_update` only appends to the fragment list, leaving the
held description and the issue unchanged, and `set_pr_description` only
replaces the description, leaving the fragment list and the issue
unchanged. -/
theorem mutator_frame (cfg : GithubConfig) (env : RemoteEnv)
    (s : PublishServiceState) (rst : RemoteState) (text : String)
    (pr : PullRequestDescription) :
    (publish_update cfg env s rst text).1.issue = s.issue ∧
    (publish_update cfg env s rst text).1.pr_desc = s.pr_desc ∧
    (publish_update cfg env s rst text).1.progress_updates
      = s.progress_updates ++ [text] ∧
    (set_pr_description cfg env s rst pr).1.issue = s.issue ∧
    (set_pr_description cfg env s rst pr).1.pr_desc = pr ∧
    (set_pr_description cfg env s rst pr).1.progress_updates = s.progress_updates :=
  ⟨rfl, rfl, rfl, rfl, rfl, rfl⟩

/-- C7: initializing with issue number 42 and title "Fix null pointer"
yields the placeholder description with title "Fix #42: Fix null
pointer", empty body and a single commit with the sentinel message, and
the commit service records exactly that one placeholder commit. -/
theorem init_scenario_42 :
    (initService ⟨42, "Fix null pointer"⟩).1.pr_desc.title
      = "Fix #42: Fix null pointer" ∧
    (initService ⟨42, "Fix null pointer"⟩).1.pr_desc.body = "" ∧
    (initService ⟨42, "Fix null pointer"⟩).1.pr_desc.commits
      = [{ commit_message := "[empty] Running..." }] ∧
    (initService ⟨42, "Fix null pointer"⟩).2.commits
      = [{ commit_message := "[empty] Running..." }] ∧
    (initService ⟨42, "Fix null pointer"⟩).2.commits.length = 1 := by
  refine ⟨by decide, rfl, rfl, rfl, rfl⟩

/-- C9: constructing the accumulator records exactly one commit (the
placeholder) through the commit service and issues no remote request at
all: the remote is first touched by the first mutator. -/
theorem construct_effects (issue : Issue) :
    (initService issue).2.remoteCalls = [] ∧
    (initService issue).2.commits
      = [{ commit_message := "[empty] Running..." }] ∧
    (initService issue).2.commits.length = 1 :=
  ⟨rfl, rfl, rfl⟩

/-- C2 (amended): with an empty fragment list and finalize false the
composed body is exactly the "Fixes #n" prefix, a blank line and the
description body, with no progress header or wrapper; with finalize true
the code still appends a (content-empty) "Click to see progress updates"
wrapper, though no "# Progress updates" header. -/
theorem empty_fragments_body (issue : Issue) (desc : PullRequestDescription) :
    build_body issue desc [] false
      = "Fixes #" ++ Nat.repr issue.number ++ "\n\n" ++ desc.body ∧
    build_body issue desc [] true
      = "Fixes #" ++ Nat.repr issue.number ++ "\n\n" ++ desc.body
        ++ "<details>\n  <summary>Click to see progress updates</summary>\n\n  \n</details>\n" := by
  constructor
  · apply String.ext
    simp [build_body, build_progress_updates]
  · apply String.ext
    simp [build_body, build_progress_updates]

/-- C2 counterexample: with an empty fragment list but finalize true the
body is not the bare prefix — the finalize wrapper is still appended. -/
theorem empty_fragments_finalize_cex :
    build_body ⟨1, "t"⟩ ⟨"t", "", []⟩ [] true ≠ "Fixes #1\n\n" ∧
    countOccs clickPhrase.data (build_body ⟨1, "t"⟩ ⟨"t", "", []⟩ [] true).data = 1 :=
  ⟨by decide, by decide⟩

/-- C4 (amended): the renderer quote-prefixes every line of a section's
text with "> " — in general the lines of the quoted text are exactly the
lines of the original with "> " prepended; text "a\nb" yields the two
lines "> a" and "> b" inside the section's block — but empty text yields
no quoted line at all (the content slot of the block is empty), not a
single empty quoted line. -/
theorem quote_lines_correct :
    (∀ v : String,
      pySplitlines (quoteText v) = (pySplitlines v).map (fun l => "> " ++ l)) ∧
    quoteText "a\nb" = "> a\n> b" ∧
    "> a" ∈ pySplitlines (render_subsection [] ("sec", "a\nb")) ∧
    "> b" ∈ pySplitlines (render_subsection [] ("sec", "a\nb")) ∧
    quoteText "" = "" := by
  refine ⟨?_, by decide, by decide, by decide, by decide⟩
  intro v
  unfold pySplitlines quoteText
  rw [show (String.mk (quoteLinesL v.data)).data = quoteLinesL v.data from rfl]
  rw [pySplitlinesL_quoteLinesL]
  simp only [List.map_map]
  rfl

/-- C4 counterexample: the quoted rendering of empty section text is the
empty string — zero lines — not a single empty quoted line. -/
theorem quote_empty_text_cex :
    quoteText "" = "" ∧ pySplitlines (quoteText "") = [] ∧ quoteText "" ≠ "> " :=
  ⟨by decide, by decide, by decide⟩

/-- C5 (amended): for a non-empty fragment list, provided neither the
description body nor any fragment itself holds the phrase "Click to see
progress updates", composing with finalize true yields exactly one
occurrence of the phrase and composing with finalize false yields none. -/
theorem finalize_wrapping_count (issue : Issue) (desc : PullRequestDescription)
    (updates : List String) (hne : updates ≠ [])
    (hdesc : countOccs clickPhrase.data desc.body.data = 0)
    (hupd : ∀ u ∈ updates, countOccs clickPhrase.data u.data = 0) :
    countOccs clickPhrase.data (build_body issue desc updates true).data = 1 ∧
    countOccs clickPhrase.data (build_body issue desc updates false).data = 0 :=
  countOccs_clickPhrase_build_body issue desc updates hne hdesc hupd

/-- C5 witness: a concrete composition exercising the theorem. -/
theorem finalize_wrapping_count_witness :
    (["step one"] : List String) ≠ [] ∧
    countOccs clickPhrase.data ("prior work" : String).data = 0 ∧
    (∀ u ∈ (["step one"] : List String), countOccs clickPhrase.data u.data = 0) ∧
    (countOccs clickPhrase.data
      (build_body ⟨3, "t"⟩ ⟨"Fix #3: t", "prior work", []⟩ ["step one"] true).data = 1 ∧
    countOccs clickPhrase.data
      (build_body ⟨3, "t"⟩ ⟨"Fix #3: t", "prior work", []⟩ ["step one"] false).data = 0) :=
  ⟨by decide, by decide, by decide,
    finalize_wrapping_count ⟨3, "t"⟩ ⟨"Fix #3: t", "prior work", []⟩ ["step one"]
      (by decide) (by decide) (by decide)⟩

set_option maxRecDepth 4096 in
/-- C5 counterexample: a fragment or a description body that itself
holds the phrase breaks the claimed occurrence counts — one occurrence
with finalize false, two with finalize true. -/
theorem finalize_wrapping_cex :
    countOccs clickPhrase.data
      (build_body ⟨1, "t"⟩ ⟨"t", "", []⟩
        ["Click to see progress updates"] false).data = 1 ∧
    countOccs clickPhrase.data
      (build_body ⟨1, "t"⟩ ⟨"t", "Click to see progress updates", []⟩
        ["x"] true).data = 2 :=
  ⟨by decide, by decide⟩

/-! ## Remote reconciler lemmas and claims -/

theorem create_pr_ok (cfg : GithubConfig) (env : RemoteEnv) (title body : String)
    (st : RemoteState) (hp : env.postOutcome st.postIdx ≠ HttpOutcome.exn) :
    (create_pr cfg env title body st).2 = Except.ok () := by
  unfold create_pr
  cases h : env.postOutcome st.postIdx with
  | exn => exact absurd h hp
  | resp code => simp [h]

theorem update_pr_ok (cfg : GithubConfig) (env : RemoteEnv) (title body : String)
    (st : RemoteState) (hf : env.findOutcome st.findIdx ≠ HttpOutcome.exn)
    (hpa : ∀ i, env.patchOutcome i ≠ HttpOutcome.exn) :
    (update_pr cfg env title body st).2 = Except.ok () := by
  unfold update_pr find_existing_pr
  cases h0 : env.findOutcome st.findIdx with
  | exn => exact absurd h0 hf
  | resp r =>
    simp only [h0]
    cases hd : decodeFind r with
    | none => simp [hd]
    | some p =>
      simp only [hd]
      cases hpatch : env.patchOutcome st.patchIdx with
      | exn => exact absurd hpatch (hpa _)
      | resp code => simp [hpatch]

/-- C1 (amended): every HTTP-level failure response (any non-success
status from the find, create or update request) is absorbed inside the
reconciler — whatever the status codes, `_publish` returns normally.
Only an exception raised by the HTTP transport itself escapes. -/
theorem publish_absorbs_http_failures (cfg : GithubConfig) (env : RemoteEnv)
    (title body : String) (st : RemoteState)
    (hf : ∀ i, env.findOutcome i ≠ HttpOutcome.exn)
    (hp : ∀ i, env.postOutcome i ≠ HttpOutcome.exn)
    (hpa : ∀ i, env.patchOutcome i ≠ HttpOutcome.exn) :
    (gh_publish cfg env title body st).2 = Except.ok () := by
  unfold gh_publish find_existing_pr
  cases h0 : env.findOutcome st.findIdx with
  | exn => exact absurd h0 (hf _)
  | resp r =>
    simp only [h0]
    cases hd : decodeFind r with
    | none =>
      simp only [hd]
      exact create_pr_ok cfg env title body _ (hp _)
    | some p =>
      simp only [hd]
      exact update_pr_ok cfg env title body _ (hf _) hpa

/-- A configuration used by the concrete witnesses. -/
def cfg0 : GithubConfig :=
  { token := "tok", owner := "own", repo := "repo",
    head_branch := "feature", base_branch := "main" }

/-- An environment whose every request yields a (non-success) response:
the find returns 500, create and update return 500 as well. -/
def envAllResp : RemoteEnv :=
  { findOutcome := fun _ => HttpOutcome.resp { status := 500, prs := [] },
    postOutcome := fun _ => HttpOutcome.resp 500,
    patchOutcome := fun _ => HttpOutcome.resp 500 }

/-- C1 witness: with failure responses on every request, `_publish`
still returns normally. -/
theorem publish_absorbs_http_failures_witness :
    (∀ i, envAllResp.findOutcome i ≠ HttpOutcome.exn) ∧
    (∀ i, envAllResp.postOutcome i ≠ HttpOutcome.exn) ∧
    (∀ i, envAllResp.patchOutcome i ≠ HttpOutcome.exn) ∧
    (gh_publish cfg0 envAllResp "t" "b" initRemote).2 = Except.ok () :=
  ⟨fun _ => by simp [envAllResp], fun _ => by simp [envAllResp],
   fun _ => by simp [envAllResp],
   publish_absorbs_http_failures cfg0 envAllResp "t" "b" initRemote
     (fun _ => by simp [envAllResp]) (fun _ => by simp [envAllResp])
     (fun _ => by simp [envAllResp])⟩

/-- An environment whose find request raises a transport exception. -/
def envExn : RemoteEnv :=
  { findOutcome := fun _ => HttpOutcome.exn,
    postOutcome := fun _ => HttpOutcome.resp 201,
    patchOutcome := fun _ => HttpOutcome.resp 200 }

/-- C1 counterexample: a transport-level exception raised by the HTTP
library inside the find request is not caught anywhere in
`GithubPublishService._publish` and propagates to the caller, so not
every failure of the remote operations is absorbed. -/
theorem publish_exception_cex :
    (gh_publish cfg0 envExn "t" "b" initRemote).2 = Except.error () := rfl

/-- C3: against a remote that consistently answers the find query with
the same list of open pull requests, `_publish` with a found pull
request issues exactly the PATCH for that pull request's number and
never a create request, and with no pull request found issues exactly
the create request and never an update. -/
theorem reconciler_branch_selection (cfg : GithubConfig) (env : RemoteEnv)
    (title body : String) (prs : List PRInfo)
    (henv : ∀ i, env.findOutcome i = HttpOutcome.resp { status := 200, prs := prs }) :
    (∀ p, prs.head? = some p →
      (gh_publish cfg env title body initRemote).1.calls
        = [RemoteCall.findCall (cfg.owner ++ ":" ++ cfg.head_branch) cfg.base_branch,
           RemoteCall.findCall (cfg.owner ++ ":" ++ cfg.head_branch) cfg.base_branch,
           RemoteCall.updateCall p.number title body]
      ∧ ∀ h b t b2, RemoteCall.createCall h b t b2
          ∉ (gh_publish cfg env title body initRemote).1.calls) ∧
    (prs = [] →
      (gh_publish cfg env title body initRemote).1.calls
        = [RemoteCall.findCall (cfg.owner ++ ":" ++ cfg.head_branch) cfg.base_branch,
           RemoteCall.createCall cfg.head_branch cfg.base_branch title body]
      ∧ ∀ n t b2, RemoteCall.updateCall n t b2
          ∉ (gh_publish cfg env title body initRemote).1.calls) := by
  constructor
  · intro p hp
    have hcalls : (gh_publish cfg env title body initRemote).1.calls
        = [RemoteCall.findCall (cfg.owner ++ ":" ++ cfg.head_branch) cfg.base_branch,
           RemoteCall.findCall (cfg.owner ++ ":" ++ cfg.head_branch) cfg.base_branch,
           RemoteCall.updateCall p.number title body] := by
      unfold gh_publish update_pr find_existing_pr
      cases hpatch : env.patchOutcome 0 with
      | exn => simp [initRemote, henv 0, henv 1, decodeFind, hp, hpatch]
      | resp code => simp [initRemote, henv 0, henv 1, decodeFind, hp, hpatch]
    refine ⟨hcalls, ?_⟩
    intro h b t b2
    rw [hcalls]
    simp
  · intro hprs
    have hcalls : (gh_publish cfg env title body initRemote).1.calls
        = [RemoteCall.findCall (cfg.owner ++ ":" ++ cfg.head_branch) cfg.base_branch,
           RemoteCall.createCall cfg.head_branch cfg.base_branch title body] := by
      unfold gh_publish create_pr find_existing_pr
      cases hpost : env.postOutcome 0 with
      | exn => simp [initRemote, henv 0, decodeFind, hprs, hpost]
      | resp code => simp [initRemote, henv 0, decodeFind, hprs, hpost]
    refine ⟨hcalls, ?_⟩
    intro n t b2
    rw [hcalls]
    simp

/-- An environment whose find query always returns one open pull
request, number 7. -/
def envFound : RemoteEnv :=
  { findOutcome := fun _ =>
      HttpOutcome.resp { status := 200, prs := [{ number := 7 }] },
    postOutcome := fun _ => HttpOutcome.resp 201,
    patchOutcome := fun _ => HttpOutcome.resp 200 }

/-- C3 witness: the update branch on a concrete environment. -/
theorem reconciler_branch_selection_witness :
    (∀ i, envFound.findOutcome i
      = HttpOutcome.resp { status := 200, prs := [{ number := 7 }] }) ∧
    ([({ number := 7 } : PRInfo)].head? = some { number := 7 }) ∧
    (gh_publish cfg0 envFound "T" "B" initRemote).1.calls
      = [RemoteCall.findCall "own:feature" "main",
         RemoteCall.findCall "own:feature" "main",
         RemoteCall.updateCall 7 "T" "B"] :=
  ⟨fun _ => rfl, rfl,
    ((reconciler_branch_selection cfg0 envFound "T" "B" [{ number := 7 }]
      (fun _ => rfl)).1 { number := 7 } rfl).1⟩

/-- C8: when the second find inside the update path answers with no
matching pull request even though the first find found one, `_publish`
returns normally having issued the two find requests and no write at
all — no PATCH and no fallback POST. -/
theorem second_find_no_write (cfg : GithubConfig) (env : RemoteEnv)
    (title body : String) (r0 r1 : FindResp) (p : PRInfo)
    (h0 : env.findOutcome 0 = HttpOutcome.resp r0) (hd0 : decodeFind r0 = some p)
    (h1 : env.findOutcome 1 = HttpOutcome.resp r1) (hd1 : decodeFind r1 = none) :
    gh_publish cfg env title body initRemote
      = ({ findIdx := 2, postIdx := 0, patchIdx := 0,
           calls := [RemoteCall.findCall (cfg.owner ++ ":" ++ cfg.head_branch) cfg.base_branch,
                     RemoteCall.findCall (cfg.owner ++ ":" ++ cfg.head_branch) cfg.base_branch] },
         Except.ok ()) := by
  unfold gh_publish update_pr find_existing_pr
  simp [initRemote, h0, hd0, h1, hd1]

/-- An environment whose find query finds pull request 3 the first time
and nothing the second time. -/
def envVanish : RemoteEnv :=
  { findOutcome := fun i =>
      if i = 0 then HttpOutcome.resp { status := 200, prs := [{ number := 3 }] }
      else HttpOutcome.resp { status := 200, prs := [] },
    postOutcome := fun _ => HttpOutcome.resp 201,
    patchOutcome := fun _ => HttpOutcome.resp 200 }

/-- C8 witness: the vanishing pull request on a concrete environment. -/
theorem second_find_no_write_witness :
    envVanish.findOutcome 0
      = HttpOutcome.resp { status := 200, prs := [{ number := 3 }] } ∧
    decodeFind { status := 200, prs := [{ number := 3 }] } = some { number := 3 } ∧
    envVanish.findOutcome 1 = HttpOutcome.resp { status := 200, prs := [] } ∧
    decodeFind { status := 200, prs := [] } = none ∧
    gh_publish cfg0 envVanish "T" "B" initRemote
      = ({ findIdx := 2, postIdx := 0, patchIdx := 0,
           calls := [RemoteCall.findCall "own:feature" "main",
                     RemoteCall.findCall "own:feature" "main"] }, Except.ok ()) :=
  ⟨rfl, by decide, rfl, by decide,
    second_find_no_write cfg0 envVanish "T" "B" _ _ { number := 3 }
      rfl (by decide) rfl (by decide)⟩
